import Mathlib

/-!
Shallow embedding of the numerixpy repository (files
`src/numerixpy/differential.py` and `src/numerixpy/integral.py`)
over exact rational arithmetic, together with proofs of the
specification's claims about it.

Python floats are modelled as `ℚ`; the coefficient literals of the
stencil tables (`-3/2`, `1/12`, …) are taken as the exact rationals the
source writes.  `sys.exit()` at construction time and Python exceptions
are modelled as `Option`/`Except` error results.
-/

/-- Dot product of two coefficient/value lists, the embedding of
`weights @ f_values` on 1-d arrays. -/
def dot (v w : List ℚ) : ℚ := (List.zipWith (fun a b => a * b) v w).sum

/-- The fixed sampling window `range(-4, 5)` used by both
differentiation classes. -/
def offsets : List ℤ := [-4, -3, -2, -1, 0, 1, 2, 3, 4]

/-- Association-list lookup, the embedding of Python's `dict.get`:
`none` when the key is absent. -/
def lookupTab {α β : Type} [DecidableEq α] : List (α × β) → α → Option β
  | [], _ => none
  | (k, v) :: rest, key => if key = k then some v else lookupTab rest key

/-- A constructed first-derivative operator (class `Diff`): the function,
the step size, the configuration and the resolved weight vector. -/
structure Diff where
  f : ℚ → ℚ
  h : ℚ
  method : String
  order : ℕ
  weights : List ℚ

/-- `Diff.table`: the first-derivative stencil table, verbatim from the
source (positions 0..8 are offsets −4..+4). -/
def Diff.table : List ((String × ℕ) × List ℚ) :=
  [ (("forward", 1), [0, 0, 0, 0, -1, 1, 0, 0, 0]),
    (("forward", 2), [0, 0, 0, 0, -3/2, 2, -1/2, 0, 0]),
    (("backward", 1), [0, 0, 0, -1, 1, 0, 0, 0, 0]),
    (("backward", 2), [0, 0, 1/2, -2, 3/2, 0, 0, 0, 0]),
    (("forward", 3), [0, 0, 0, -2/6, -1/2, 1, -1/6, 0, 0]),
    (("central", 2), [0, 0, 0, -1/2, 0, 1/2, 0, 0, 0]),
    (("central", 4), [0, 0, 1/12, -2/3, 0, 2/3, -1/12, 0, 0]),
    (("central", 6), [0, -1/60, 3/20, -3/4, 0, 3/4, -3/20, 1/60, 0]),
    (("central", 8), [1/280, -4/105, 12/60, -4/5, 0, 4/5, -12/60, 4/105, -1/280]) ]

/-- `Diff.table.get((method, order))`. -/
def Diff.tableGet (method : String) (order : ℕ) : Option (List ℚ) :=
  lookupTab Diff.table (method, order)

/-- `Diff.__init__`: resolves the weights from the table and performs the
source's truthiness test `if not self.weights.any(): sys.exit()`.
A missing key (`np.array(None)`) and an all-zero row both fail the test;
the `sys.exit()` path is modelled as `none`. -/
def Diff.mk? (f : ℚ → ℚ) (h : ℚ) (method : String) (order : ℕ) : Option Diff :=
  match Diff.tableGet method order with
  | none => none
  | some w => if ∀ c ∈ w, c = 0 then none else some ⟨f, h, method, order, w⟩

/-- `Diff.__call__(x)`: sample `f` at the nine points `x + i*h` for
`i ∈ range(-4, 5)`, dot with the weights, divide by `h`. -/
def Diff.call (d : Diff) (x : ℚ) : ℚ :=
  dot d.weights (offsets.map (fun (i : ℤ) => d.f (x + (i : ℚ) * d.h))) / d.h

/-- A constructed second-derivative operator (class `Diff2`). -/
structure Diff2 where
  f : ℚ → ℚ
  h : ℚ
  method : String
  order : ℕ
  weights : List ℚ

/-- `Diff2.table`: the second-derivative stencil table, verbatim from the
source. -/
def Diff2.table : List ((String × ℕ) × List ℚ) :=
  [ (("forward", 1), [0, 0, 0, 0, 1, -2, 1, 0, 0]),
    (("forward", 2), [0, 0, 0, 0, 2, -5, 4, -1, 0]),
    (("backward", 1), [0, 0, 1, -2, 1, 0, 0, 0, 0]),
    (("backward", 2), [0, -1, 4, -5, 2, 0, 0, 0, 0]),
    (("central", 2), [0, 0, 0, 1, -2, 1, 0, 0, 0]),
    (("central", 4), [0, 0, -1/12, 4/3, -5/2, 4/3, -1/12, 0, 0]) ]

/-- `Diff2.table.get((method, order))`. -/
def Diff2.tableGet (method : String) (order : ℕ) : Option (List ℚ) :=
  lookupTab Diff2.table (method, order)

/-- `Diff2.__init__`, with the same truthiness test and exit path as
`Diff.__init__`. -/
def Diff2.mk? (f : ℚ → ℚ) (h : ℚ) (method : String) (order : ℕ) : Option Diff2 :=
  match Diff2.tableGet method order with
  | none => none
  | some w => if ∀ c ∈ w, c = 0 then none else some ⟨f, h, method, order, w⟩

/-- `Diff2.__call__(x)`: as for `Diff`, but dividing by `h^2`. -/
def Diff2.call (d : Diff2) (x : ℚ) : ℚ :=
  dot d.weights (offsets.map (fun (i : ℤ) => d.f (x + (i : ℚ) * d.h))) / d.h ^ 2

/-- The exceptions `Integral.__init__` can raise: `ZeroDivisionError`
from the step-size computation, `NotImplementedError` from the final
`else` branch of the weight generation. -/
inductive IntErr where
  | zeroDivision : IntErr
  | notImplemented : IntErr
deriving DecidableEq

/-- A constructed quadrature operator (class `Integral`). -/
structure Integral where
  f : ℚ → ℚ
  a : ℚ
  b : ℚ
  n : ℕ
  method : String
  h : ℚ
  weights : List ℚ

/-- Interior Simpson weight at index `i`:
`4h/3` when `i % 2 == 1`, else `2h/3`. -/
def simpsonInterior (h : ℚ) (i : ℕ) : ℚ :=
  if i % 2 = 1 then 4 * h / 3 else 2 * h / 3

/-- `Integral.__init__`: step size `h = (b-a)/n` for `"midpoint"` and
`(b-a)/(n-1)` otherwise (a zero divisor raises `ZeroDivisionError`),
then the per-rule weight list of the source:
trapezoidal `[h/2] + (n-2)*[h] + [h/2]`, midpoint `n*[h]`, simpson
`[h/3] + [4h/3 or 2h/3 by index parity for i in range(1, n-1)] + [h/3]`,
and `NotImplementedError` for every other rule name. -/
def Integral.mk? (f : ℚ → ℚ) (a b : ℚ) (n : ℕ) (method : String) :
    Except IntErr Integral :=
  if method = "midpoint" then
    if n = 0 then .error .zeroDivision
    else .ok ⟨f, a, b, n, method, (b - a) / (n : ℚ),
              List.replicate n ((b - a) / (n : ℚ))⟩
  else
    if n = 1 then .error .zeroDivision
    else if method = "trapezoidal" then
      .ok ⟨f, a, b, n, method, (b - a) / ((n : ℚ) - 1),
           [(b - a) / ((n : ℚ) - 1) / 2] ++
             List.replicate (n - 2) ((b - a) / ((n : ℚ) - 1)) ++
             [(b - a) / ((n : ℚ) - 1) / 2]⟩
    else if method = "simpson" then
      .ok ⟨f, a, b, n, method, (b - a) / ((n : ℚ) - 1),
           [(b - a) / ((n : ℚ) - 1) / 3] ++
             (List.range' 1 (n - 2)).map
               (simpsonInterior ((b - a) / ((n : ℚ) - 1))) ++
             [(b - a) / ((n : ℚ) - 1) / 3]⟩
    else .error .notImplemented

/-- `Integral.__call__()`: sample `f` at `a + i*h` for `i in range(n)`,
dot with the weights. -/
def Integral.call (I : Integral) : ℚ :=
  dot I.weights ((List.range I.n).map (fun (i : ℕ) => I.f (I.a + (i : ℚ) * I.h)))

/-- `k`-th discrete moment of a 9-wide stencil: `Σ_i w_i * i^k` over the
offsets `i = -4..4`, the coefficient times offset to the `k`-th power. -/
def moment (w : List ℚ) (k : ℕ) : ℚ :=
  (List.zipWith (fun c i => c * (i : ℚ) ^ k) w offsets).sum

/-- A 9-wide stencil is the standard first-derivative finite-difference
stencil of accuracy order `p` on its support when it satisfies the
defining Taylor moment conditions: zeroth moment 0, first moment 1, and
moments 2..p all 0. -/
def IsStdFirstDeriv (w : List ℚ) (p : ℕ) : Prop :=
  w.length = 9 ∧ moment w 0 = 0 ∧ moment w 1 = 1 ∧
    ∀ k ∈ Finset.Icc 2 p, moment w k = 0

/-- Standard second-derivative stencil of accuracy order `p`: zeroth and
first moments 0, second moment 2, moments 3..p+1 all 0. -/
def IsStdSecondDeriv (w : List ℚ) (p : ℕ) : Prop :=
  w.length = 9 ∧ moment w 0 = 0 ∧ moment w 1 = 0 ∧ moment w 2 = 2 ∧
    ∀ k ∈ Finset.Icc 3 (p + 1), moment w k = 0

instance (w : List ℚ) (p : ℕ) : Decidable (IsStdFirstDeriv w p) := by
  unfold IsStdFirstDeriv; infer_instance

instance (w : List ℚ) (p : ℕ) : Decidable (IsStdSecondDeriv w p) := by
  unfold IsStdSecondDeriv; infer_instance

/-- A successful association-list lookup finds one of the listed pairs. -/
lemma lookupTab_mem {α β : Type} [DecidableEq α] {l : List (α × β)} {k : α}
    {v : β} (h : lookupTab l k = some v) : (k, v) ∈ l := by
  induction l with
  | nil => simp [lookupTab] at h
  | cons e rest ih =>
    obtain ⟨a, b⟩ := e
    by_cases hk : k = a
    · subst hk
      simp only [lookupTab, if_true, eq_self_iff_true, Option.some.injEq] at h
      subst h
      exact List.mem_cons_self _ _
    · simp only [lookupTab, if_neg hk] at h
      exact List.mem_cons_of_mem _ (ih h)

/-- Dot product against a constant list. -/
lemma dot_replicate (w : List ℚ) (m : ℕ) (c : ℚ) :
    dot w (List.replicate m c) = c * (w.take m).sum := by
  induction w generalizing m with
  | nil => simp [dot]
  | cons a t ih =>
    cases m with
    | zero => simp [dot]
    | succ m =>
      have : dot (a :: t) (List.replicate (m + 1) c) = a * c + dot t (List.replicate m c) := by
        simp [dot, List.replicate_succ]
      rw [this, ih]
      simp [List.take_succ_cons]
      ring

/-- Dot product against a constant list of matching length. -/
lemma dot_const (w : List ℚ) {m : ℕ} (c : ℚ) (hm : w.length = m) :
    dot w (List.replicate m c) = c * w.sum := by
  subst hm
  rw [dot_replicate, List.take_length]

/-- Every first-derivative table row is 9 wide, has a nonzero
coefficient and sums to zero. -/
lemma Diff.table_rows :
    ∀ e ∈ Diff.table, e.2.length = 9 ∧ (∃ c ∈ e.2, c ≠ 0) ∧ e.2.sum = 0 := by
  intro e he
  simp only [Diff.table, List.mem_cons, List.not_mem_nil, or_false] at he
  rcases he with rfl | rfl | rfl | rfl | rfl | rfl | rfl | rfl | rfl <;> norm_num

/-- Every second-derivative table row is 9 wide, has a nonzero
coefficient and sums to zero. -/
lemma diff2_row_facts :
    ∀ e ∈ Diff2.table, e.2.length = 9 ∧ (∃ c ∈ e.2, c ≠ 0) ∧ e.2.sum = 0 := by
  intro e he
  simp only [Diff2.table, List.mem_cons, List.not_mem_nil, or_false] at he
  rcases he with rfl | rfl | rfl | rfl | rfl | rfl <;> norm_num

/-- Inverting `Diff.__init__`: a constructed operator carries its
arguments and a weight vector resolved from the table. -/
lemma Diff.mk?_some {f : ℚ → ℚ} {h : ℚ} {m : String} {o : ℕ} {d : Diff}
    (hd : Diff.mk? f h m o = some d) :
    Diff.tableGet m o = some d.weights ∧ d.f = f ∧ d.h = h ∧
      d.method = m ∧ d.order = o := by
  unfold Diff.mk? at hd
  split at hd
  · exact absurd hd (by simp)
  next w htab =>
    split at hd
    · exact absurd hd (by simp)
    · cases hd
      exact ⟨htab, rfl, rfl, rfl, rfl⟩

/-- Inverting `Diff2.__init__`. -/
lemma diff2_mk_some {f : ℚ → ℚ} {h : ℚ} {m : String} {o : ℕ} {d : Diff2}
    (hd : Diff2.mk? f h m o = some d) :
    Diff2.tableGet m o = some d.weights ∧ d.f = f ∧ d.h = h ∧
      d.method = m ∧ d.order = o := by
  unfold Diff2.mk? at hd
  split at hd
  · exact absurd hd (by simp)
  next w htab =>
    split at hd
    · exact absurd hd (by simp)
    · cases hd
      exact ⟨htab, rfl, rfl, rfl, rfl⟩

/-- Every first-derivative table row satisfies the standard
finite-difference moment conditions for its own order. -/
lemma Diff.table_std : ∀ e ∈ Diff.table, IsStdFirstDeriv e.2 e.1.2 := by
  intro e he
  simp only [Diff.table, List.mem_cons, List.not_mem_nil, or_false] at he
  rcases he with rfl | rfl | rfl | rfl | rfl | rfl | rfl | rfl | rfl <;>
    refine ⟨rfl, ?_, ?_, ?_⟩ <;>
    first
      | (intro k hk; fin_cases hk <;> norm_num [moment, offsets])
      | norm_num [moment, offsets]

/-- Every second-derivative table row satisfies the standard
finite-difference moment conditions for its own order. -/
lemma diff2_rows_std : ∀ e ∈ Diff2.table, IsStdSecondDeriv e.2 e.1.2 := by
  intro e he
  simp only [Diff2.table, List.mem_cons, List.not_mem_nil, or_false] at he
  rcases he with rfl | rfl | rfl | rfl | rfl | rfl <;>
    refine ⟨rfl, ?_, ?_, ?_, ?_⟩ <;>
    first
      | (intro k hk; fin_cases hk <;> norm_num [moment, offsets])
      | norm_num [moment, offsets]

/-- The window `-4..+4` as the image of `0..8`. -/
lemma icc_neg4_4 :
    Finset.Icc (-4 : ℤ) 4 = (Finset.range 9).image (fun j : ℕ => (j : ℤ) - 4) := by
  decide

/-- The zip-with-sum evaluation of a 9-wide stencil is the indexed sum
over the offsets `-4..+4`. -/
lemma dot_eq_sum_icc (w : List ℚ) (hw : w.length = 9) (g : ℤ → ℚ) :
    dot w (offsets.map g) =
      ∑ i in Finset.Icc (-4 : ℤ) 4, w.getD (i + 4).toNat 0 * g i := by
  rcases w with _|⟨a0,_|⟨a1,_|⟨a2,_|⟨a3,_|⟨a4,_|⟨a5,_|⟨a6,_|⟨a7,_|⟨a8,tl⟩⟩⟩⟩⟩⟩⟩⟩⟩ <;>
    simp only [List.length_cons, List.length_nil] at hw <;> try omega
  have htl : tl = [] := by
    have h0 : tl.length = 0 := by omega
    exact List.length_eq_zero.mp h0
  subst htl
  rw [icc_neg4_4, Finset.sum_image (by intro x hx y hy hxy; omega)]
  have hidx : ∀ j : ℕ, ((j : ℤ) - 4 + 4).toNat = j := by intro j; simp
  simp only [hidx]
  simp [Finset.sum_range_succ, dot, offsets]
  ring

/-- `Diff.__init__` hits its exit path exactly when the lookup fails:
no table row is all-zero, so the truthiness test never rejects a
present key. -/
lemma Diff.mk?_none_iff {f : ℚ → ℚ} {h : ℚ} {m : String} {o : ℕ} :
    Diff.mk? f h m o = none ↔ Diff.tableGet m o = none := by
  constructor
  · intro hnone
    cases htab : Diff.tableGet m o with
    | none => rfl
    | some w =>
      obtain ⟨c, hc, hc0⟩ := (Diff.table_rows _ (lookupTab_mem htab)).2.1
      have hnall : ¬ ∀ c ∈ w, c = 0 := fun hall => hc0 (hall c hc)
      unfold Diff.mk? at hnone
      rw [htab] at hnone
      simp [hnall] at hnone
  · intro htab
    unfold Diff.mk?
    rw [htab]

/-- `Diff2.__init__` hits its exit path exactly when the lookup
fails. -/
lemma diff2_mk_none_iff {f : ℚ → ℚ} {h : ℚ} {m : String} {o : ℕ} :
    Diff2.mk? f h m o = none ↔ Diff2.tableGet m o = none := by
  constructor
  · intro hnone
    cases htab : Diff2.tableGet m o with
    | none => rfl
    | some w =>
      obtain ⟨c, hc, hc0⟩ := (diff2_row_facts _ (lookupTab_mem htab)).2.1
      have hnall : ¬ ∀ c ∈ w, c = 0 := fun hall => hc0 (hall c hc)
      unfold Diff2.mk? at hnone
      rw [htab] at hnone
      simp [hnall] at hnone
  · intro htab
    unfold Diff2.mk?
    rw [htab]

/-- C1: for every function, step size, supported (method, order) pair
and point `x`, the first-derivative operator returns
`(Σ_{i=-4..4} w_i * f(x + i*h)) / h` with `w` the 9-element weight
vector resolved at construction, and the second-derivative operator the
same dot product divided by `h^2`; both sample `f` at all 9 offsets. -/
theorem C1_evaluate_is_weighted_sum (m : String) (o : ℕ) (f : ℚ → ℚ) (h x : ℚ) :
    (∀ d : Diff, Diff.mk? f h m o = some d →
      d.call x = (∑ i in Finset.Icc (-4 : ℤ) 4,
        d.weights.getD (i + 4).toNat 0 * f (x + (i : ℚ) * h)) / h) ∧
    (∀ d : Diff2, Diff2.mk? f h m o = some d →
      d.call x = (∑ i in Finset.Icc (-4 : ℤ) 4,
        d.weights.getD (i + 4).toNat 0 * f (x + (i : ℚ) * h)) / h ^ 2) := by
  constructor
  · intro d hd
    obtain ⟨htab, hf, hh, -, -⟩ := Diff.mk?_some hd
    have hw9 : d.weights.length = 9 := (Diff.table_rows _ (lookupTab_mem htab)).1
    unfold Diff.call
    simp only [hf, hh]
    rw [dot_eq_sum_icc _ hw9]
  · intro d hd
    obtain ⟨htab, hf, hh, -, -⟩ := diff2_mk_some hd
    have hw9 : d.weights.length = 9 := (diff2_row_facts _ (lookupTab_mem htab)).1
    unfold Diff2.call
    simp only [hf, hh]
    rw [dot_eq_sum_icc _ hw9]

/-- Witness for C1 at `f = id`, `h = 1`, central order 2, `x = 0`. -/
theorem C1_witness :
    Diff.call ⟨fun t => t, 1, "central", 2, [0, 0, 0, -1/2, 0, 1/2, 0, 0, 0]⟩ 0 =
      (∑ i in Finset.Icc (-4 : ℤ) 4,
        ([0, 0, 0, -1/2, 0, 1/2, 0, 0, 0] : List ℚ).getD (i + 4).toNat 0 *
          ((0 : ℚ) + (i : ℚ) * 1)) / 1 :=
  (C1_evaluate_is_weighted_sum "central" 2 (fun t => t) 1 0).1
    ⟨fun t => t, 1, "central", 2, [0, 0, 0, -1/2, 0, 1/2, 0, 0, 0]⟩
    (by
      unfold Diff.mk?
      rw [show Diff.tableGet "central" 2 =
            some [0, 0, 0, -1/2, 0, 1/2, 0, 0, 0] from rfl]
      norm_num)

/-- C4: a (method, order) pair with no table entry makes construction
fail — the exit path, modelled as an error result — for both derivative
variants; no usable operator is ever produced. -/
theorem C4_unsupported_pair_rejected (f : ℚ → ℚ) (h : ℚ) (m : String) (o : ℕ) :
    (Diff.tableGet m o = none → Diff.mk? f h m o = none) ∧
    (Diff2.tableGet m o = none → Diff2.mk? f h m o = none) :=
  ⟨fun htab => Diff.mk?_none_iff.mpr htab, fun htab => diff2_mk_none_iff.mpr htab⟩

/-- Witness for C4 at the absent pair ("central", 3). -/
theorem C4_witness :
    Diff.mk? (fun t => t) 1 "central" 3 = none ∧
    Diff2.mk? (fun t => t) 1 "central" 3 = none :=
  ⟨(C4_unsupported_pair_rejected (fun t => t) 1 "central" 3).1 rfl,
   (C4_unsupported_pair_rejected (fun t => t) 1 "central" 3).2 rfl⟩

/-- C9: every row of both stencil tables has a nonzero coefficient, so
the truthiness-based rejection in the constructors fires exactly when
the (method, order) key is absent from the table. -/
theorem C9_truthiness_rejection_iff_absent :
    (∀ e ∈ Diff.table, ∃ c ∈ e.2, c ≠ 0) ∧
    (∀ e ∈ Diff2.table, ∃ c ∈ e.2, c ≠ 0) ∧
    ∀ (f : ℚ → ℚ) (h : ℚ) (m : String) (o : ℕ),
      (Diff.mk? f h m o = none ↔ Diff.tableGet m o = none) ∧
      (Diff2.mk? f h m o = none ↔ Diff2.tableGet m o = none) :=
  ⟨fun e he => (Diff.table_rows e he).2.1,
   fun e he => (diff2_row_facts e he).2.1,
   fun _ _ _ _ => ⟨Diff.mk?_none_iff, diff2_mk_none_iff⟩⟩

/-- Witness for C9 at the central order-2 row. -/
theorem C9_witness :
    (∃ c ∈ ([0, 0, 0, -1/2, 0, 1/2, 0, 0, 0] : List ℚ), c ≠ 0) ∧
    (Diff.mk? (fun t => t) 1 "central" 9 = none ↔
      Diff.tableGet "central" 9 = none) :=
  ⟨C9_truthiness_rejection_iff_absent.1 (("central", 2),
      [0, 0, 0, -1/2, 0, 1/2, 0, 0, 0]) (by norm_num [Diff.table]),
   (C9_truthiness_rejection_iff_absent.2.2 (fun t => t) 1 "central" 9).1⟩

/-- C10: every row of both stencil tables sums to zero, so for every
constant function, nonzero step size and supported configuration, both
derivative operators return exactly 0 everywhere. -/
theorem C10_rows_sum_zero_const_derivative :
    (∀ e ∈ Diff.table, e.2.sum = 0) ∧
    (∀ e ∈ Diff2.table, e.2.sum = 0) ∧
    ∀ (c h x : ℚ) (m : String) (o : ℕ), h ≠ 0 →
      (∀ d : Diff, Diff.mk? (fun _ => c) h m o = some d → d.call x = 0) ∧
      (∀ d : Diff2, Diff2.mk? (fun _ => c) h m o = some d → d.call x = 0) := by
  refine ⟨fun e he => (Diff.table_rows e he).2.2,
          fun e he => (diff2_row_facts e he).2.2, ?_⟩
  intro c h x m o _
  constructor
  · intro d hd
    obtain ⟨htab, hf, -, -, -⟩ := Diff.mk?_some hd
    have hrow := Diff.table_rows _ (lookupTab_mem htab)
    unfold Diff.call
    simp only [hf]
    rw [List.map_const', dot_const _ c (by rw [hrow.1]; rfl), hrow.2.2]
    simp
  · intro d hd
    obtain ⟨htab, hf, -, -, -⟩ := diff2_mk_some hd
    have hrow := diff2_row_facts _ (lookupTab_mem htab)
    unfold Diff2.call
    simp only [hf]
    rw [List.map_const', dot_const _ c (by rw [hrow.1]; rfl), hrow.2.2]
    simp

/-- Witness for C10 at `c = 5`, `h = 1`, central order 2, `x = 3`. -/
theorem C10_witness :
    Diff.call ⟨fun _ => 5, 1, "central", 2, [0, 0, 0, -1/2, 0, 1/2, 0, 0, 0]⟩ 3 = 0 :=
  ((C10_rows_sum_zero_const_derivative.2.2 5 1 3 "central" 2 (by norm_num)).1
    ⟨fun _ => 5, 1, "central", 2, [0, 0, 0, -1/2, 0, 1/2, 0, 0, 0]⟩
    (by
      unfold Diff.mk?
      rw [show Diff.tableGet "central" 2 =
            some [0, 0, 0, -1/2, 0, 1/2, 0, 0, 0] from rfl]
      norm_num))

/-- `Integral.__init__` on the midpoint branch, `n ≠ 0`. -/
lemma Integral.mk?_midpoint {f : ℚ → ℚ} {a b : ℚ} {n : ℕ} (hn : n ≠ 0) :
    Integral.mk? f a b n "midpoint" =
      .ok ⟨f, a, b, n, "midpoint", (b - a) / (n : ℚ),
           List.replicate n ((b - a) / (n : ℚ))⟩ := by
  unfold Integral.mk?
  rw [if_pos rfl, if_neg hn]

/-- `Integral.__init__` on the trapezoidal branch, `n ≠ 1`. -/
lemma Integral.mk?_trapezoidal {f : ℚ → ℚ} {a b : ℚ} {n : ℕ} (hn : n ≠ 1) :
    Integral.mk? f a b n "trapezoidal" =
      .ok ⟨f, a, b, n, "trapezoidal", (b - a) / ((n : ℚ) - 1),
           [(b - a) / ((n : ℚ) - 1) / 2] ++
             List.replicate (n - 2) ((b - a) / ((n : ℚ) - 1)) ++
             [(b - a) / ((n : ℚ) - 1) / 2]⟩ := by
  unfold Integral.mk?
  rw [if_neg (show ¬("trapezoidal" : String) = "midpoint" from by decide),
      if_neg hn, if_pos rfl]

/-- `Integral.__init__` on the simpson branch, `n ≠ 1`. -/
lemma Integral.mk?_simpson {f : ℚ → ℚ} {a b : ℚ} {n : ℕ} (hn : n ≠ 1) :
    Integral.mk? f a b n "simpson" =
      .ok ⟨f, a, b, n, "simpson", (b - a) / ((n : ℚ) - 1),
           [(b - a) / ((n : ℚ) - 1) / 3] ++
             (List.range' 1 (n - 2)).map
               (simpsonInterior ((b - a) / ((n : ℚ) - 1))) ++
             [(b - a) / ((n : ℚ) - 1) / 3]⟩ := by
  unfold Integral.mk?
  rw [if_neg (show ¬("simpson" : String) = "midpoint" from by decide),
      if_neg hn,
      if_neg (show ¬("simpson" : String) = "trapezoidal" from by decide),
      if_pos rfl]

/-- C5: for every `n ≥ 2`, the simpson constructor sets
`h = (b-a)/(n-1)` and builds a length-`n` weight list with `h/3` at the
ends and `4h/3` / `2h/3` at odd / even interior indices. -/
theorem C5_simpson_weights (f : ℚ → ℚ) (a b : ℚ) (n : ℕ) (I : Integral)
    (hn : 2 ≤ n) (hI : Integral.mk? f a b n "simpson" = .ok I) :
    I.h = (b - a) / ((n : ℚ) - 1) ∧
    I.weights.length = n ∧
    I.weights.getD 0 0 = I.h / 3 ∧
    I.weights.getD (n - 1) 0 = I.h / 3 ∧
    ∀ i, 1 ≤ i → i ≤ n - 2 →
      I.weights.getD i 0 = if i % 2 = 1 then 4 * I.h / 3 else 2 * I.h / 3 := by
  rw [Integral.mk?_simpson (by omega)] at hI
  cases hI
  dsimp only
  refine ⟨rfl, ?_, ?_, ?_, ?_⟩
  · simp only [List.length_append, List.length_map, List.length_range',
      List.length_singleton]
    omega
  · rfl
  · simp only [List.cons_append, List.nil_append]
    rw [show n - 1 = (n - 2) + 1 from by omega, List.getD_cons_succ,
        List.getD_append_right _ _ _ _ (by
          simp only [List.length_map, List.length_range']; omega),
        show n - 2 - ((List.range' 1 (n - 2)).map
          (simpsonInterior ((b - a) / ((n : ℚ) - 1)))).length = 0 from by
          simp only [List.length_map, List.length_range']; omega]
    rfl
  · intro i h1i hin2
    have hlen : i - 1 < ((List.range' 1 (n - 2)).map
        (simpsonInterior ((b - a) / ((n : ℚ) - 1)))).length := by
      simp only [List.length_map, List.length_range']; omega
    simp only [List.cons_append, List.nil_append]
    rw [show i = (i - 1) + 1 from by omega, List.getD_cons_succ,
        List.getD_append _ _ _ _ hlen, List.getD_eq_getElem _ _ hlen,
        List.getElem_map, List.getElem_range'_1,
        show 1 + (i - 1) = i from by omega,
        show i - 1 + 1 = i from by omega]
    rfl

/-- Witness for C5 at `n = 4`, `a = 0`, `b = 3` (where `h = 1`). -/
theorem C5_witness :
    (2 ≤ 4) ∧
    ((⟨fun _ => (0 : ℚ), 0, 3, 4, "simpson", 1, [1/3, 4/3, 2/3, 1/3]⟩ :
        Integral).h = (3 - 0) / ((4 : ℕ) - 1 : ℚ) ∧
      (⟨fun _ => (0 : ℚ), 0, 3, 4, "simpson", 1, [1/3, 4/3, 2/3, 1/3]⟩ :
        Integral).weights.length = 4 ∧
      (⟨fun _ => (0 : ℚ), 0, 3, 4, "simpson", 1, [1/3, 4/3, 2/3, 1/3]⟩ :
        Integral).weights.getD 0 0 =
        (⟨fun _ => (0 : ℚ), 0, 3, 4, "simpson", 1, [1/3, 4/3, 2/3, 1/3]⟩ :
          Integral).h / 3 ∧
      (⟨fun _ => (0 : ℚ), 0, 3, 4, "simpson", 1, [1/3, 4/3, 2/3, 1/3]⟩ :
        Integral).weights.getD (4 - 1) 0 =
        (⟨fun _ => (0 : ℚ), 0, 3, 4, "simpson", 1, [1/3, 4/3, 2/3, 1/3]⟩ :
          Integral).h / 3 ∧
      ∀ i, 1 ≤ i → i ≤ 4 - 2 →
        (⟨fun _ => (0 : ℚ), 0, 3, 4, "simpson", 1, [1/3, 4/3, 2/3, 1/3]⟩ :
          Integral).weights.getD i 0 =
          if i % 2 = 1 then
            4 * (⟨fun _ => (0 : ℚ), 0, 3, 4, "simpson", 1,
              [1/3, 4/3, 2/3, 1/3]⟩ : Integral).h / 3
          else
            2 * (⟨fun _ => (0 : ℚ), 0, 3, 4, "simpson", 1,
              [1/3, 4/3, 2/3, 1/3]⟩ : Integral).h / 3) :=
  ⟨by norm_num,
   C5_simpson_weights (fun _ => 0) 0 3 4 _ (by norm_num)
     (by
       rw [Integral.mk?_simpson (by norm_num)]
       norm_num [simpsonInterior, List.range']) ⟩

/-- C6: every rule name other than the three recognized ones makes
construction fail with the not-implemented error (for `n ≥ 2`, so the
step-size computation succeeds first), and no operator is produced. -/
theorem C6_unknown_rule_rejected (f : ℚ → ℚ) (a b : ℚ) (n : ℕ) (method : String)
    (hn : 2 ≤ n) (h1 : method ≠ "trapezoidal") (h2 : method ≠ "midpoint")
    (h3 : method ≠ "simpson") :
    Integral.mk? f a b n method = .error .notImplemented := by
  unfold Integral.mk?
  rw [if_neg h2, if_neg (by omega), if_neg h1, if_neg h3]

/-- Witness for C6 at the rule name "gauss", `n = 2`. -/
theorem C6_witness :
    (2 ≤ 2) ∧ ("gauss" : String) ≠ "trapezoidal" ∧
    ("gauss" : String) ≠ "midpoint" ∧ ("gauss" : String) ≠ "simpson" ∧
    Integral.mk? (fun _ => (0 : ℚ)) 0 1 2 "gauss" = .error .notImplemented :=
  ⟨by norm_num, by decide, by decide, by decide,
   C6_unknown_rule_rejected (fun _ => 0) 0 1 2 "gauss" (by norm_num)
     (by decide) (by decide) (by decide)⟩

/-- C8 fails as stated: with `n = 0` the trapezoidal construction
completes (the divisor `n - 1` is `-1`, so no error is raised) yet
produces 2 weights, not `n = 0`. -/
theorem C8_counterexample :
    (Integral.mk? (fun _ => (0 : ℚ)) 0 1 0 "trapezoidal").map
        (fun I => I.weights.length) = .ok 2 ∧ (2 : ℕ) ≠ 0 := by
  constructor
  · rw [Integral.mk?_trapezoidal (by decide)]
    rfl
  · decide

/-- C8 amended: for every constructed quadrature operator with `n ≥ 1`,
the weight list has length exactly `n`. -/
theorem C8_amended_weight_length (f : ℚ → ℚ) (a b : ℚ) (n : ℕ) (method : String)
    (I : Integral) (hn : 1 ≤ n) (hI : Integral.mk? f a b n method = .ok I) :
    I.weights.length = n := by
  unfold Integral.mk? at hI
  split at hI
  · split at hI
    · exact absurd hI (by simp)
    · cases hI
      simp
  · split at hI
    · exact absurd hI (by simp)
    · rename_i hn1
      split at hI
      · cases hI
        simp only [List.length_append, List.length_replicate,
          List.length_singleton]
        omega
      · split at hI
        · cases hI
          simp only [List.length_append, List.length_map, List.length_range',
            List.length_singleton]
          omega
        · exact absurd hI (by simp)

/-- Witness for C8 amended at trapezoidal, `n = 2`, `[a, b] = [0, 1]`. -/
theorem C8_witness :
    (1 ≤ 2) ∧
    (⟨fun _ => (0 : ℚ), 0, 1, 2, "trapezoidal", 1, [1/2, 1/2]⟩ :
      Integral).weights.length = 2 :=
  ⟨by norm_num,
   C8_amended_weight_length (fun _ => 0) 0 1 2 "trapezoidal" _ (by norm_num)
     (by
       rw [Integral.mk?_trapezoidal (by norm_num)]
       norm_num)⟩

/-- Evaluating `Diff.__init__` on a present key whose row is not
all-zero. -/
lemma Diff.mk?_eval {f : ℚ → ℚ} {h : ℚ} {m : String} {o : ℕ} {w : List ℚ}
    (htab : Diff.tableGet m o = some w) (hnz : ¬ ∀ c ∈ w, c = 0) :
    Diff.mk? f h m o = some ⟨f, h, m, o, w⟩ := by
  unfold Diff.mk?
  rw [htab]
  exact if_neg hnz

/-- C2: both stencil tables list exactly the supported (method, order)
pairs of the spec; every lookup result is a 9-element vector satisfying
the standard finite-difference moment conditions for its order; and the
central order-2 first-derivative entry is `[-1/2, 0, 1/2]` at offsets
`-1, 0, +1` and zero elsewhere. -/
theorem C2_table_standard_coefficients :
    Diff.table.map Prod.fst =
      [("forward", 1), ("forward", 2), ("backward", 1), ("backward", 2),
       ("forward", 3), ("central", 2), ("central", 4), ("central", 6),
       ("central", 8)] ∧
    Diff2.table.map Prod.fst =
      [("forward", 1), ("forward", 2), ("backward", 1), ("backward", 2),
       ("central", 2), ("central", 4)] ∧
    (∀ (m : String) (o : ℕ) (w : List ℚ),
      Diff.tableGet m o = some w → IsStdFirstDeriv w o) ∧
    (∀ (m : String) (o : ℕ) (w : List ℚ),
      Diff2.tableGet m o = some w → IsStdSecondDeriv w o) ∧
    Diff.tableGet "central" 2 = some [0, 0, 0, -1/2, 0, 1/2, 0, 0, 0] := by
  refine ⟨rfl, rfl, ?_, ?_, rfl⟩
  · intro m o w hw
    exact Diff.table_std _ (lookupTab_mem hw)
  · intro m o w hw
    exact diff2_rows_std _ (lookupTab_mem hw)

/-- Witness for C2 at the central order-2 first-derivative entry. -/
theorem C2_witness : IsStdFirstDeriv [0, 0, 0, -1/2, 0, 1/2, 0, 0, 0] 2 :=
  C2_table_standard_coefficients.2.2.1 "central" 2 _ rfl

/-- C7: for `f(t) = t^3` at `x = 2` with `h = 1e-5`, the central
first-derivative operators return exactly `12 + 1e-10` (order 2) and
exactly `12` (orders 4, 6, 8) in exact rational arithmetic, so every
order is within `1e-3` of the true derivative 12 and no higher order
exceeds the order-2 error. -/
theorem C7_cubic_central_accuracy :
    (Diff.mk? (fun t => t ^ 3) (1/100000) "central" 2).map
        (fun d => d.call 2) = some (12 + 1/10000000000) ∧
    (Diff.mk? (fun t => t ^ 3) (1/100000) "central" 4).map
        (fun d => d.call 2) = some 12 ∧
    (Diff.mk? (fun t => t ^ 3) (1/100000) "central" 6).map
        (fun d => d.call 2) = some 12 ∧
    (Diff.mk? (fun t => t ^ 3) (1/100000) "central" 8).map
        (fun d => d.call 2) = some 12 ∧
    |(12 + 1/10000000000 : ℚ) - 12| ≤ 1/1000 ∧
    |(12 : ℚ) - 12| ≤ |(12 + 1/10000000000 : ℚ) - 12| := by
  refine ⟨?_, ?_, ?_, ?_, ?_, ?_⟩
  · rw [Diff.mk?_eval (m := "central") (o := 2)
        (w := [0, 0, 0, -1/2, 0, 1/2, 0, 0, 0]) rfl (by norm_num)]
    simp only [Option.map_some']
    norm_num [Diff.call, dot, offsets]
  · rw [Diff.mk?_eval (m := "central") (o := 4)
        (w := [0, 0, 1/12, -2/3, 0, 2/3, -1/12, 0, 0]) rfl (by norm_num)]
    simp only [Option.map_some']
    norm_num [Diff.call, dot, offsets]
  · rw [Diff.mk?_eval (m := "central") (o := 6)
        (w := [0, -1/60, 3/20, -3/4, 0, 3/4, -3/20, 1/60, 0]) rfl (by norm_num)]
    simp only [Option.map_some']
    norm_num [Diff.call, dot, offsets]
  · rw [Diff.mk?_eval (m := "central") (o := 8)
        (w := [1/280, -4/105, 12/60, -4/5, 0, 4/5, -12/60, 4/105, -1/280]) rfl (by norm_num)]
    simp only [Option.map_some']
    norm_num [Diff.call, dot, offsets]
  · rw [show (12 + 1/10000000000 : ℚ) - 12 = 1/10000000000 from by ring,
        abs_of_nonneg (by norm_num : (0:ℚ) ≤ 1/10000000000)]
    norm_num
  · rw [show (12 + 1/10000000000 : ℚ) - 12 = 1/10000000000 from by ring,
        abs_of_nonneg (by norm_num : (0:ℚ) ≤ 1/10000000000)]
    norm_num

/-- Evaluating a quadrature operator on a constant function gives the
constant times the weight sum (when the weight list has length `n`). -/
lemma Integral.call_const (I : Integral) (c : ℚ) (hf : I.f = fun _ => c)
    (hlen : I.weights.length = I.n) : I.call = c * I.weights.sum := by
  unfold Integral.call
  simp only [hf]
  rw [List.map_const', List.length_range]
  exact dot_const _ c hlen

/-- Sum of the interior Simpson weights over an even count of interior
indices `1..2m`. -/
lemma simpson_interior_sum_even (h : ℚ) (m : ℕ) :
    ((List.range' 1 (2 * m)).map (simpsonInterior h)).sum = 2 * (m : ℚ) * h := by
  induction m with
  | zero => simp
  | succ m ih =>
    rw [show 2 * (m + 1) = (2 * m + 1) + 1 from by ring,
        List.range'_1_concat, List.range'_1_concat]
    have h1 : (1 + 2 * m) % 2 = 1 := by omega
    have h2 : (1 + (2 * m + 1)) % 2 = 0 := by omega
    simp [simpsonInterior, h1, h2, ih]
    ring

/-- Sum of the interior Simpson weights over an odd count of interior
indices `1..2m+1`. -/
lemma simpson_interior_sum_odd (h : ℚ) (m : ℕ) :
    ((List.range' 1 (2 * m + 1)).map (simpsonInterior h)).sum =
      2 * (m : ℚ) * h + 4 * h / 3 := by
  rw [List.range'_1_concat]
  have h1 : (1 + 2 * m) % 2 = 1 := by omega
  simp [simpsonInterior, h1, simpson_interior_sum_even]

/-- C3 fails as stated: the simpson rule with `n = 2` over `[0, 1]`
integrates the constant 1 to `2/3`, not `b - a = 1`, and misses by far
more than the `1e-9` tolerance. -/
theorem C3_counterexample :
    (Integral.mk? (fun _ => (1 : ℚ)) 0 1 2 "simpson").map Integral.call =
      .ok (2/3) ∧
    ¬ |(2/3 : ℚ) - (1 - 0)| ≤ 1/1000000000 := by
  constructor
  · rw [Integral.mk?_simpson (by decide)]
    show Except.ok _ = _
    norm_num [Integral.call, dot, List.range_succ, List.range']
  · rw [show (2/3 : ℚ) - (1 - 0) = -(1/3) from by norm_num, abs_neg,
        abs_of_nonneg (by norm_num : (0:ℚ) ≤ 1/3)]
    norm_num

/-- C3 amended: integrating the constant function 1 over `[a, b]` is
exactly `b - a` for the trapezoidal and midpoint rules at every
`n ≥ 2`, and for the simpson rule at every odd `n` (even `n` fails, as
the counterexample shows). -/
theorem C3_amended_constant_exactness (a b : ℚ) (n : ℕ) (hn : 2 ≤ n) :
    (Integral.mk? (fun _ => (1 : ℚ)) a b n "trapezoidal").map Integral.call =
      .ok (b - a) ∧
    (Integral.mk? (fun _ => (1 : ℚ)) a b n "midpoint").map Integral.call =
      .ok (b - a) ∧
    (n % 2 = 1 →
      (Integral.mk? (fun _ => (1 : ℚ)) a b n "simpson").map Integral.call =
        .ok (b - a)) := by
  have hq2 : (2 : ℚ) ≤ (n : ℚ) := by exact_mod_cast hn
  have hn1 : ((n : ℚ) - 1) ≠ 0 := by intro h0; nlinarith
  have hn0 : ((n : ℚ)) ≠ 0 := by intro h0; nlinarith
  refine ⟨?_, ?_, ?_⟩
  · rw [Integral.mk?_trapezoidal (by omega)]
    show Except.ok _ = _
    rw [Integral.call_const _ 1 rfl (by
      simp only [List.length_append, List.length_replicate,
        List.length_singleton]
      omega)]
    simp only [List.sum_append, List.sum_replicate, List.sum_cons,
      List.sum_nil, nsmul_eq_mul]
    rw [show ((n - 2 : ℕ) : ℚ) = (n : ℚ) - 2 from by
      push_cast [Nat.cast_sub hn]; ring]
    rw [Except.ok.injEq]
    field_simp
    ring
  · rw [Integral.mk?_midpoint (by omega)]
    show Except.ok _ = _
    rw [Integral.call_const _ 1 rfl (by simp)]
    simp only [List.sum_replicate, nsmul_eq_mul]
    rw [Except.ok.injEq]
    field_simp
  · intro hodd
    obtain ⟨m, rfl⟩ : ∃ m, n = 2 * m + 1 := ⟨n / 2, by omega⟩
    have hm1 : 1 ≤ m := by omega
    rw [Integral.mk?_simpson (by omega)]
    show Except.ok _ = _
    rw [Integral.call_const _ 1 rfl (by
      simp only [List.length_append, List.length_map, List.length_range',
        List.length_singleton]
      omega)]
    simp only [List.sum_append, List.sum_cons, List.sum_nil]
    rw [show 2 * m + 1 - 2 = 2 * (m - 1) + 1 from by omega,
        simpson_interior_sum_odd]
    rw [show ((m - 1 : ℕ) : ℚ) = (m : ℚ) - 1 from by
      push_cast [Nat.cast_sub hm1]; ring]
    rw [Except.ok.injEq]
    have hm0 : ((2 * m + 1 : ℕ) : ℚ) - 1 ≠ 0 := by
      push_cast
      have : (1 : ℚ) ≤ (m : ℚ) := by exact_mod_cast hm1
      intro h0; nlinarith
    field_simp
    ring

/-- Witness for C3 amended at `[a, b] = [0, 1]`, `n = 3`. -/
theorem C3_witness :
    (2 ≤ 3) ∧ (3 % 2 = 1) ∧
    ((Integral.mk? (fun _ => (1 : ℚ)) 0 1 3 "trapezoidal").map Integral.call =
      .ok (1 - 0)) ∧
    ((Integral.mk? (fun _ => (1 : ℚ)) 0 1 3 "midpoint").map Integral.call =
      .ok (1 - 0)) ∧
    ((Integral.mk? (fun _ => (1 : ℚ)) 0 1 3 "simpson").map Integral.call =
      .ok (1 - 0)) :=
  ⟨by norm_num, by norm_num,
   (C3_amended_constant_exactness 0 1 3 (by norm_num)).1,
   (C3_amended_constant_exactness 0 1 3 (by norm_num)).2.1,
   (C3_amended_constant_exactness 0 1 3 (by norm_num)).2.2 (by norm_num)⟩
